import Mathlib

/-!
Verification of the document-processing core of project-dartos.

The Python source is shallowly embedded: text is `List Char`, fallible
collaborators (PDF extraction, the vector store, the language model) are
`Except`-valued parameters, and the mutable document row is a record that
is threaded through the pipeline explicitly.
-/

/-- Python regex class \s restricted to ASCII, as used by str.strip, str.split
and the \s escapes in src/backend/services/rag_service.py. -/
def pyIsSpace (c : Char) : Bool :=
  c = ' ' || c = '\t' || c = '\n' || c = '\r' || c = '\x0b' || c = '\x0c'

/-- Python str.strip(): drop whitespace from both ends. -/
def pyStrip (l : List Char) : List Char :=
  ((l.dropWhile pyIsSpace).reverse.dropWhile pyIsSpace).reverse

/-- Python slice text[a:b] on a list. -/
def pySlice (l : List Char) (a b : Nat) : List Char :=
  (l.drop a).take (b - a)

/-- Runs of spaces and tabs collapse to one space: models
re.sub applied with [ \t]+ and a single space in chunk_text
(src/backend/services/rag_service.py line 61). The flag records whether the
scanner is inside a run that has already emitted its space. -/
def collapseGo : Bool → List Char → List Char
  | _, [] => []
  | inRun, c :: r =>
    if c = ' ' || c = '\t' then
      if inRun then collapseGo true r else ' ' :: collapseGo true r
    else c :: collapseGo false r

/-- Index of the last newline inside the leading whitespace run of the list,
if any: the greedy match of the middle of the pattern \n\s*\n. -/
def lastNlInWsRun : List Char → Option Nat
  | [] => none
  | c :: r =>
    if pyIsSpace c then
      match lastNlInWsRun r with
      | some k => some (k + 1)
      | none => if c = '\n' then some 0 else none
    else none

/-- Models re.sub applied with the pattern \n\s*\n and replacement of two
newlines (src/backend/services/rag_service.py line 62): left-to-right
non-overlapping greedy matches, scanning resumes after each match. The
fuel argument only bounds the recursion; every step consumes at least one
character, so fuel equal to the length never runs out. -/
def paraSubGo : Nat → List Char → List Char
  | 0, l => l
  | _, [] => []
  | fuel + 1, c :: rest =>
    if c = '\n' then
      match lastNlInWsRun rest with
      | some k => '\n' :: '\n' :: paraSubGo fuel (rest.drop (k + 1))
      | none => '\n' :: paraSubGo fuel rest
    else c :: paraSubGo fuel rest

/-- The paragraph-break normalisation pass. -/
def paraSub (l : List Char) : List Char := paraSubGo l.length l

/-- The whitespace normalisation at the top of chunk_text:
strip, collapse space/tab runs, normalise paragraph breaks. -/
def normalizeText (text : List Char) : List Char :=
  paraSub (collapseGo false (pyStrip text))

/-- Punctuation exempt from the special-character count in
_validate_extracted_text (src/backend/main.py line 114). -/
def allowedPunct : List Char :=
  ['.', ',', '!', '?', ';', ':', '-', '(', ')', '[', ']', '\x7b', '\x7d']

/-- A character counted as special by _validate_extracted_text:
not alphanumeric, not whitespace, not in the exempt punctuation. -/
def isSpecialChar (c : Char) : Bool :=
  !c.isAlphanum && !pyIsSpace c && !allowedPunct.contains c

/-- Word counter for Python str.split(): counts maximal runs of
non-whitespace characters. The flag records being inside a word. -/
def wordCountGo : Bool → List Char → Nat
  | _, [] => 0
  | inW, c :: r =>
    if pyIsSpace c then wordCountGo false r
    else (if inW then 0 else 1) + wordCountGo true r

/-- Number of words produced by Python str.split() with no arguments. -/
def wordCount (l : List Char) : Nat := wordCountGo false l

/-- Scanner for the regex of a character followed by ten or more copies of
itself (src/backend/main.py line 121): current run character and length. -/
def hasRunGo : Char → Nat → List Char → Bool
  | _, n, [] => 11 ≤ n
  | c, n, d :: r =>
    if 11 ≤ n then true
    else if d = c then hasRunGo c (n + 1) r
    else hasRunGo d 1 r

/-- True when the text contains eleven or more consecutive equal characters. -/
def hasRepeatRun : List Char → Bool
  | [] => false
  | c :: r => hasRunGo c 1 r

/-- Renders special/n as a percentage with two decimals, modelling the
Python format of special_ratio with .2% (the model floors at four decimal
digits where Python rounds the underlying float; no claim inspects these
digits). -/
def formatPercent2 (special n : Nat) : String :=
  let pm := special * 10000 / n
  let r := pm % 100
  toString (pm / 100) ++ "." ++ (if r < 10 then "0" ++ toString r else toString r) ++ "%"

/-- Body of _validate_extracted_text after the initial strip
(src/backend/main.py lines 106-129); the input is the stripped text. The
ratio comparison special/length > 0.3 is taken over the rationals,
equivalently 10*special > 3*length. -/
def validateCore (t : List Char) : Bool × String :=
  let n := t.length
  if n < 50 then
    (false, "Text too short (" ++ toString n ++ " characters)")
  else
    let special := t.countP isSpecialChar
    if 3 * n < 10 * special then
      (false, "Too many special characters (" ++ formatPercent2 special n ++ ") - possible OCR failure")
    else if hasRepeatRun t then
      (false, "Repetitive characters detected - possible extraction error")
    else if wordCount t < 10 then
      (false, "Insufficient word count (" ++ toString (wordCount t) ++ " words)")
    else (true, "Text validation passed")

/-- Models _validate_extracted_text (src/backend/main.py lines 101-129),
returning the pair of is_valid and reason. -/
def validate_extracted_text (text : List Char) : Bool × String :=
  if text = [] || pyStrip text = [] then (false, "No text content")
  else validateCore (pyStrip text)

/-- Offset just past the last match of the regex of a sentence end
(one of . ! ? followed by a whitespace character) inside the window,
scanning from position i: re.finditer matches are exactly the positions
where a punctuation character is followed by whitespace, and the code in
chunk_text keeps the last one (src/backend/services/rag_service.py
lines 74-82). -/
def lastSentEndGo : Nat → List Char → Option Nat
  | _, [] => none
  | _, [_] => none
  | i, a :: b :: r =>
    match lastSentEndGo (i + 1) (b :: r) with
    | some m => some m
    | none =>
      if (a = '.' || a = '!' || a = '?') && pyIsSpace b then some (i + 2) else none

/-- Offset just past the last sentence-end match in the window. -/
def lastSentEnd (w : List Char) : Option Nat := lastSentEndGo 0 w

/-- Start offset of the last occurrence of two consecutive newlines in the
window, scanning from position i: models str.rfind applied to the
paragraph separator within the slice (src/backend/services/rag_service.py
line 86). -/
def lastTwoNlGo : Nat → List Char → Option Nat
  | _, [] => none
  | _, [_] => none
  | i, a :: b :: r =>
    match lastTwoNlGo (i + 1) (b :: r) with
    | some q => some q
    | none => if a = '\n' && b = '\n' then some i else none

/-- Start offset of the last paragraph break in the window. -/
def lastTwoNl (w : List Char) : Option Nat := lastTwoNlGo 0 w

/-- End position of the window starting at start, as computed by one
iteration of the loop in chunk_text (src/backend/services/rag_service.py
lines 69-88): tentative end start+chunk_size; when that lies strictly
inside the text, snap back to the last sentence end of the window that is
at least int(chunk_size * 0.6) in (written 6*cs/10: Python float and this
integer form agree on all chunk sizes up to 200000, checked exhaustively),
and otherwise to the last paragraph break beyond chunk_size // 2.
sentSnap is the sentence-boundary snap (lines 74-82): the match in reversed
order breaks at the first end at least min_pos, which is the last match
overall when that one qualifies; paraSnap is the paragraph-break snap
(lines 85-88). -/
def sentSnap (t : List Char) (cs start : Nat) : Nat :=
  match lastSentEnd ((t.drop start).take cs) with
  | some m => if 6 * cs / 10 ≤ m then start + m else start + cs
  | none => start + cs

/-- Paragraph-break snap of chunk_text (src/backend/services/rag_service.py
lines 85-88): the last paragraph break of the window when it lies beyond
chunk_size // 2, included together with its two newlines. -/
def paraSnap (t : List Char) (cs start : Nat) : Nat :=
  match lastTwoNl ((t.drop start).take cs) with
  | some q => if cs / 2 < q then start + q + 2 else start + cs
  | none => start + cs

/-- The end of the window starting at start: the tentative end is
start+chunk_size; strictly inside the text the sentence snap applies and,
exactly when it left the end unchanged, the paragraph snap. -/
def chunkEnd (t : List Char) (cs start : Nat) : Nat :=
  if start + cs < t.length then
    if sentSnap t cs start = start + cs then paraSnap t cs start
    else sentSnap t cs start
  else start + cs

/-- The while loop of chunk_text, with explicit fuel: one unit of fuel per
iteration. Each iteration slices the window, strips it, keeps it when
non-empty, and advances start to max(start+1, end-overlap). -/
def chunkLoop (t : List Char) (cs ov : Nat) : Nat → Nat → List (List Char)
  | 0, _ => []
  | fuel + 1, start =>
    if start < t.length then
      let e := chunkEnd t cs start
      let chunk := pyStrip (pySlice t start e)
      let rest := chunkLoop t cs ov fuel (max (start + 1) (e - ov))
      if chunk = [] then rest else chunk :: rest
    else []

/-- Models RAGService.chunk_text (src/backend/services/rag_service.py
lines 54-98): empty or all-whitespace input yields no chunks; otherwise
the normalised text is cut by the window loop. The fuel length+1 is enough
because start strictly increases each iteration. -/
def chunk_text (text : List Char) (cs ov : Nat) : List (List Char) :=
  if text = [] || pyStrip text = [] then []
  else
    let t := normalizeText text
    chunkLoop t cs ov (t.length + 1) 0

/-- One stored chunk of the vector collection: unique string id, owning
document id and chunk index kept as metadata, and the chunk text. -/
structure ChunkRecord where
  id : String
  doc_id : Nat
  chunk_index : Nat
  text : List Char
deriving DecidableEq, Repr

/-- Models collection.add of the underlying store: ids already present are
not overwritten, fresh ids are appended (ChromaDB logs and skips inserts
of existing embedding ids). -/
def collectionAdd (store recs : List ChunkRecord) : List ChunkRecord :=
  store ++ recs.filter (fun r => store.all (fun s => s.id ≠ r.id))

/-- Models RAGService.index_document (src/backend/services/rag_service.py
lines 100-138) acting on the collection state: chunk the text with the
default parameters, and when chunks result, add them with ids of the form
doc_i_chunk_j and doc_id metadata. No deletion of prior chunks occurs. -/
def index_document (store : List ChunkRecord) (did : Nat) (text : List Char) : List ChunkRecord :=
  let chunks := chunk_text text 1000 200
  if chunks = [] then store
  else
    let recs := chunks.enum.map (fun p =>
      { id := "doc_" ++ toString did ++ "_chunk_" ++ toString p.1
        doc_id := did
        chunk_index := p.1
        text := p.2 : ChunkRecord })
    collectionAdd store recs

/-- Models RAGService.delete_document (src/backend/services/rag_service.py
lines 164-182): remove every chunk whose doc_id metadata matches. Defined
because the spec requires it before re-indexing; no code path of the
repository calls it. -/
def delete_document (store : List ChunkRecord) (did : Nat) : List ChunkRecord :=
  store.filter (fun r => r.doc_id ≠ did)

/-- The document row as touched by the background task: status string,
extracted content, optional error message. -/
structure Document where
  status : String
  content : List Char
  error_message : Option String
deriving DecidableEq, Repr

/-- Models _extract_and_validate_text (src/backend/main.py lines 148-163).
The argument is the outcome of pdf_processor.extract_text: ok with the text,
or error with the exception message; every exception is caught and turned
into a failure triple. -/
def extract_and_validate_text (res : Except String (List Char)) : List Char × Bool × String :=
  match res with
  | Except.error e => ([], false, "Text extraction failed: " ++ e)
  | Except.ok txt =>
    if (validate_extracted_text txt).1 = false then
      ([], false, "Text extraction validation failed: " ++ (validate_extracted_text txt).2)
    else if pyStrip txt = [] then
      ([], false, "No text could be extracted from the PDF")
    else (txt, true, "")

/-- The retry loop of _index_document_with_rag (src/backend/main.py
lines 171-182). attempt i is the outcome of the i-th call of
rag_service.index_document; rem is the number of attempts left. The result
records the final status, the error message, the list of back-off sleeps
performed (seconds), and the number of attempts made. -/
def retryGo (attempt : Nat → Except String Unit) : Nat → Nat → String × Option String × List Nat × Nat
  | _, 0 => ("processed", some ("RAG indexing failed after retries"), [], 0)
  | i, rem + 1 =>
    match attempt i with
    | Except.ok _ => ("indexed", none, [], 1)
    | Except.error e =>
      if rem = 0 then ("processed", some ("RAG indexing failed after retries: " ++ e), [], 1)
      else
        let r := retryGo attempt (i + 1) rem
        (r.1, r.2.1, 2 ^ i :: r.2.2.1, r.2.2.2 + 1)

/-- Models _index_document_with_rag (src/backend/main.py lines 166-182):
without a RAG service the document is processed but not indexed; otherwise
the retry loop runs with max_index_retries = 3 starting at attempt 0. -/
def index_document_with_rag (ragAvailable : Bool) (attempt : Nat → Except String Unit) :
    String × Option String × List Nat × Nat :=
  if ragAvailable = false then
    ("processed", some ("RAG service not available, document not indexed"), [], 0)
  else retryGo attempt 0 3

/-- Models process_and_index_document (src/backend/main.py lines 185-235)
on a document present in the store. extractRes is the outcome of text
extraction, attempt the outcomes of the indexing calls, and stray an
exception raised at any other point of the guarded block, which the
top-level handler catches by marking the document failed. -/
def process_and_index_document (doc : Document) (extractRes : Except String (List Char))
    (ragAvailable : Bool) (attempt : Nat → Except String Unit) (stray : Option String) : Document :=
  let doc1 : Document := { doc with status := "processing" }
  match stray with
  | some e => { doc1 with status := "failed", error_message := some e }
  | none =>
    let ext := extract_and_validate_text extractRes
    if ext.2.1 = false then { doc1 with status := "failed", error_message := some ext.2.2 }
    else
      let doc2 : Document := { doc1 with content := ext.1 }
      let idx := index_document_with_rag ragAvailable attempt
      { doc2 with status := idx.1, error_message := idx.2.1 }

/-- Response shape of the query endpoint. -/
structure SummaryResponse where
  query : String
  response : String
  relevant_chunks : List String
deriving DecidableEq, Repr

/-- Models the body of process_document (src/backend/main.py
lines 325-389). relevantChunks is the chunk list produced by the search
step (already empty when the RAG service is missing or the search raised),
docCount the number of document rows, and llmGen the outcome of the
language-model call. The boolean of the result records whether
llm_service.generate_response was invoked. -/
def process_document (query : String) (relevantChunks : List String) (docCount : Nat)
    (llmAvailable : Bool) (llmGen : Except String String) : SummaryResponse × Bool :=
  if relevantChunks = [] then
    if docCount = 0 then
      ({ query := query
         response := "No documents have been uploaded yet. Please upload some PDF documents first."
         relevant_chunks := [] }, false)
    else
      ({ query := query
         response := "No relevant content found in the uploaded documents for this query. Try rephrasing your question or uploading more relevant documents."
         relevant_chunks := [] }, false)
  else
    if llmAvailable then
      match llmGen with
      | Except.ok r => ({ query := query, response := r, relevant_chunks := relevantChunks }, true)
      | Except.error e =>
        ({ query := query
           response := "Error generating LLM response: " ++ e ++ ". Retrieved context chunks are available below."
           relevant_chunks := relevantChunks }, true)
    else
      ({ query := query
         response := "LLM service not available. Please configure GROK_API_KEY. Retrieved context chunks are shown below."
         relevant_chunks := relevantChunks }, false)

/-- A concrete extracted text that passes the quality gate, used as input
for the closed instantiations of the pipeline theorems. -/
def sampleText : List Char :=
  ("The quick brown fox jumps over the lazy dog near the river bank today.").toList

/-- An indexing collaborator that fails on the first two attempts and
succeeds on the third. -/
def attemptThirdOk : Nat → Except String Unit :=
  fun i => if i < 2 then Except.error ("store down") else Except.ok ()

/-- An indexing collaborator that fails on every attempt. -/
def attemptAllFail : Nat → Except String Unit :=
  fun _ => Except.error ("store down")

section Lemmas

/-- pyStrip written through the Mathlib combinator for dropping from the
right. -/
theorem pyStrip_eq_rdropWhile (l : List Char) :
    pyStrip l = List.rdropWhile pyIsSpace (l.dropWhile pyIsSpace) := rfl

theorem pyStrip_nil : pyStrip [] = [] := rfl

theorem pyStrip_idem (l : List Char) : pyStrip (pyStrip l) = pyStrip l := by
  rw [pyStrip_eq_rdropWhile, pyStrip_eq_rdropWhile]
  set d := l.dropWhile pyIsSpace with hd
  have hdrop : d.dropWhile pyIsSpace = d := by
    rw [hd]; exact List.dropWhile_idempotent _ _
  have hpre : (List.rdropWhile pyIsSpace d).IsPrefix d := List.rdropWhile_prefix _ _
  have hself : (List.rdropWhile pyIsSpace d).dropWhile pyIsSpace =
      List.rdropWhile pyIsSpace d := by
    rcases hm : List.rdropWhile pyIsSpace d with _ | ⟨x, xs⟩
    · rfl
    · rw [List.dropWhile_cons]
      have hx : pyIsSpace x = false := by
        rcases hpre with ⟨tail, htail⟩
        rw [hm] at htail
        have hd2 : d.dropWhile pyIsSpace = d := hdrop
        rw [← htail] at hd2
        have h0 := List.dropWhile_eq_self_iff.mp hd2 (by simp)
        simpa using h0
      simp [hx]
  rw [hself]
  exact List.rdropWhile_idempotent _ _

theorem mem_dropWhile_of_mem {x : Char} {l : List Char} (hx : x ∈ l)
    (hws : pyIsSpace x = false) : x ∈ l.dropWhile pyIsSpace := by
  induction l with
  | nil => cases hx
  | cons c r ih =>
    rw [List.dropWhile_cons]
    cases hc : pyIsSpace c
    · simpa using hx
    · simp only [if_pos rfl]
      rcases List.mem_cons.mp hx with h | h
      · subst h; rw [hws] at hc; cases hc
      · exact ih h

theorem mem_pyStrip_of_mem {x : Char} {l : List Char} (hx : x ∈ l)
    (hws : pyIsSpace x = false) : x ∈ pyStrip l := by
  unfold pyStrip
  have h1 : x ∈ l.dropWhile pyIsSpace := mem_dropWhile_of_mem hx hws
  have h2 : x ∈ (l.dropWhile pyIsSpace).reverse := List.mem_reverse.mpr h1
  have h3 : x ∈ (l.dropWhile pyIsSpace).reverse.dropWhile pyIsSpace :=
    mem_dropWhile_of_mem h2 hws
  exact List.mem_reverse.mpr h3

theorem pyStrip_length_le (l : List Char) : (pyStrip l).length ≤ l.length := by
  rw [pyStrip_eq_rdropWhile]
  calc (List.rdropWhile pyIsSpace (l.dropWhile pyIsSpace)).length
      ≤ (l.dropWhile pyIsSpace).length :=
        (List.rdropWhile_prefix _ _).length_le
    _ ≤ l.length := (List.dropWhile_suffix _).length_le

end Lemmas


section ChunkLemmas

theorem lastSentEndGo_bound : ∀ (l : List Char) (i m : Nat),
    lastSentEndGo i l = some m → i + 2 ≤ m ∧ m ≤ i + l.length := by
  intro l
  induction l with
  | nil => intro i m h; simp [lastSentEndGo] at h
  | cons a r ih =>
    intro i m h
    cases r with
    | nil => simp [lastSentEndGo] at h
    | cons b r2 =>
      rw [lastSentEndGo] at h
      cases hrec : lastSentEndGo (i + 1) (b :: r2) with
      | some m2 =>
        simp only [hrec, Option.some.injEq] at h
        subst h
        have hb := ih (i + 1) m2 hrec
        simp only [List.length_cons] at hb ⊢
        omega
      | none =>
        simp only [hrec] at h
        by_cases hc : ((a = '.' || a = '!' || a = '?') && pyIsSpace b) = true
        · rw [if_pos hc] at h
          simp only [Option.some.injEq] at h
          subst h
          simp only [List.length_cons]
          omega
        · rw [if_neg hc] at h
          cases h

theorem lastTwoNlGo_bound : ∀ (l : List Char) (i q : Nat),
    lastTwoNlGo i l = some q → i ≤ q ∧ q + 2 ≤ i + l.length := by
  intro l
  induction l with
  | nil => intro i q h; simp [lastTwoNlGo] at h
  | cons a r ih =>
    intro i q h
    cases r with
    | nil => simp [lastTwoNlGo] at h
    | cons b r2 =>
      rw [lastTwoNlGo] at h
      cases hrec : lastTwoNlGo (i + 1) (b :: r2) with
      | some q2 =>
        simp only [hrec, Option.some.injEq] at h
        subst h
        have hb := ih (i + 1) q2 hrec
        simp only [List.length_cons] at hb ⊢
        omega
      | none =>
        simp only [hrec] at h
        by_cases hc : (a = '\n' && b = '\n') = true
        · rw [if_pos hc] at h
          simp only [Option.some.injEq] at h
          subst h
          simp only [List.length_cons]
          omega
        · rw [if_neg hc] at h
          cases h

theorem window_length_le (t : List Char) (cs s : Nat) :
    ((t.drop s).take cs).length ≤ cs := by
  simp [List.length_take]

theorem sentSnap_le (t : List Char) (cs s : Nat) : sentSnap t cs s ≤ s + cs := by
  cases hm : lastSentEnd ((t.drop s).take cs) with
  | none => simp [sentSnap, hm]
  | some m =>
    simp only [sentSnap, hm]
    have hb := lastSentEndGo_bound _ _ _ hm
    have hw := window_length_le t cs s
    by_cases hc : 6 * cs / 10 ≤ m
    · rw [if_pos hc]; omega
    · rw [if_neg hc]

theorem sentSnap_ge (t : List Char) (cs s : Nat) (hcs : 1 ≤ cs) :
    s + 1 ≤ sentSnap t cs s := by
  cases hm : lastSentEnd ((t.drop s).take cs) with
  | none => simp only [sentSnap, hm]; omega
  | some m =>
    simp only [sentSnap, hm]
    have hb := lastSentEndGo_bound _ _ _ hm
    by_cases hc : 6 * cs / 10 ≤ m
    · rw [if_pos hc]; omega
    · rw [if_neg hc]; omega

theorem paraSnap_le (t : List Char) (cs s : Nat) : paraSnap t cs s ≤ s + cs := by
  cases hq : lastTwoNl ((t.drop s).take cs) with
  | none => simp [paraSnap, hq]
  | some q =>
    simp only [paraSnap, hq]
    have hb := lastTwoNlGo_bound _ _ _ hq
    have hw := window_length_le t cs s
    by_cases hc : cs / 2 < q
    · rw [if_pos hc]; omega
    · rw [if_neg hc]

theorem paraSnap_ge (t : List Char) (cs s : Nat) (hcs : 1 ≤ cs) :
    s + 1 ≤ paraSnap t cs s := by
  cases hq : lastTwoNl ((t.drop s).take cs) with
  | none => simp only [paraSnap, hq]; omega
  | some q =>
    simp only [paraSnap, hq]
    by_cases hc : cs / 2 < q
    · rw [if_pos hc]; omega
    · rw [if_neg hc]; omega

theorem chunkEnd_le (t : List Char) (cs s : Nat) : chunkEnd t cs s ≤ s + cs := by
  unfold chunkEnd
  by_cases hlen : s + cs < t.length
  · rw [if_pos hlen]
    by_cases hss : sentSnap t cs s = s + cs
    · rw [if_pos hss]; exact paraSnap_le t cs s
    · rw [if_neg hss]; exact sentSnap_le t cs s
  · rw [if_neg hlen]

theorem chunkEnd_ge (t : List Char) (cs s : Nat) (hcs : 1 ≤ cs) :
    s + 1 ≤ chunkEnd t cs s := by
  unfold chunkEnd
  by_cases hlen : s + cs < t.length
  · rw [if_pos hlen]
    by_cases hss : sentSnap t cs s = s + cs
    · rw [if_pos hss]; exact paraSnap_ge t cs s hcs
    · rw [if_neg hss]; exact sentSnap_ge t cs s hcs
  · rw [if_neg hlen]; omega

end ChunkLemmas

section LoopLemmas

theorem chunkLoop_fuel_indep (t : List Char) (cs ov : Nat) :
    ∀ f g s, t.length + 1 - s ≤ f → t.length + 1 - s ≤ g →
      chunkLoop t cs ov f s = chunkLoop t cs ov g s := by
  intro f
  induction f with
  | zero =>
    intro g s hf hg
    have hs : ¬ s < t.length := by omega
    cases g with
    | zero => rfl
    | succ g2 =>
      simp only [chunkLoop]
      rw [if_neg hs]
  | succ f2 ih =>
    intro g s hf hg
    cases g with
    | zero =>
      have hs : ¬ s < t.length := by omega
      simp only [chunkLoop]
      rw [if_neg hs]
    | succ g2 =>
      simp only [chunkLoop]
      by_cases hs : s < t.length
      · rw [if_pos hs, if_pos hs]
        have hmax : s + 1 ≤ max (s + 1) (chunkEnd t cs s - ov) := Nat.le_max_left _ _
        have hf2 : t.length + 1 - max (s + 1) (chunkEnd t cs s - ov) ≤ f2 := by omega
        have hg2 : t.length + 1 - max (s + 1) (chunkEnd t cs s - ov) ≤ g2 := by omega
        rw [ih g2 _ hf2 hg2]
      · rw [if_neg hs, if_neg hs]

theorem pySlice_length_le (t : List Char) (s e : Nat) :
    (pySlice t s e).length ≤ e - s := by
  unfold pySlice
  simp [List.length_take]

theorem chunkLoop_mem (t : List Char) (cs ov : Nat) :
    ∀ f s c, c ∈ chunkLoop t cs ov f s →
      c ≠ [] ∧ pyStrip c = c ∧ c.length ≤ cs := by
  intro f
  induction f with
  | zero => intro s c hc; simp [chunkLoop] at hc
  | succ f2 ih =>
    intro s c hc
    simp only [chunkLoop] at hc
    by_cases hs : s < t.length
    · rw [if_pos hs] at hc
      by_cases hch : pyStrip (pySlice t s (chunkEnd t cs s)) = []
      · rw [if_pos hch] at hc
        exact ih _ c hc
      · rw [if_neg hch] at hc
        rcases List.mem_cons.mp hc with h | h
        · subst h
          refine ⟨hch, pyStrip_idem _, ?_⟩
          have h1 := pyStrip_length_le (pySlice t s (chunkEnd t cs s))
          have h2 := pySlice_length_le t s (chunkEnd t cs s)
          have h3 := chunkEnd_le t cs s
          omega
        · exact ih _ c h
    · rw [if_neg hs] at hc
      cases hc

theorem chunkLoop_covers (t : List Char) (cs ov : Nat) (hcs : 1 ≤ cs)
    {x : Char} (hws : pyIsSpace x = false) :
    ∀ f s, t.length + 1 - s ≤ f → x ∈ t.drop s →
      ∃ c ∈ chunkLoop t cs ov f s, x ∈ c := by
  intro f
  induction f with
  | zero =>
    intro s hf hx
    have hns : t.length ≤ s := by omega
    rw [List.drop_eq_nil_of_le hns] at hx
    cases hx
  | succ f2 ih =>
    intro s hf hx
    have hs : s < t.length := by
      by_contra hns
      rw [List.drop_eq_nil_of_le (Nat.le_of_not_lt hns)] at hx
      cases hx
    simp only [chunkLoop]
    rw [if_pos hs]
    have hes : s + 1 ≤ chunkEnd t cs s := chunkEnd_ge t cs s hcs
    have hsplit : pySlice t s (chunkEnd t cs s) ++ t.drop (chunkEnd t cs s) = t.drop s := by
      unfold pySlice
      have hdd : (t.drop s).drop (chunkEnd t cs s - s) = t.drop (chunkEnd t cs s) := by
        rw [List.drop_drop]
        congr 1
        omega
      rw [← hdd]
      exact List.take_append_drop _ _
    rw [← hsplit] at hx
    rcases List.mem_append.mp hx with hxs | hxe
    · have hchunk : x ∈ pyStrip (pySlice t s (chunkEnd t cs s)) :=
        mem_pyStrip_of_mem hxs hws
      have hne : pyStrip (pySlice t s (chunkEnd t cs s)) ≠ [] := by
        intro h0
        rw [h0] at hchunk
        cases hchunk
      rw [if_neg hne]
      exact ⟨pyStrip (pySlice t s (chunkEnd t cs s)), List.mem_cons_self _ _, hchunk⟩
    · have hs2e : max (s + 1) (chunkEnd t cs s - ov) ≤ chunkEnd t cs s :=
        max_le hes (Nat.sub_le _ _)
      have hx2 : x ∈ t.drop (max (s + 1) (chunkEnd t cs s - ov)) := by
        have hdd : t.drop (chunkEnd t cs s) =
            (t.drop (max (s + 1) (chunkEnd t cs s - ov))).drop
              (chunkEnd t cs s - max (s + 1) (chunkEnd t cs s - ov)) := by
          rw [List.drop_drop]
          congr 1
          omega
        rw [hdd] at hxe
        exact List.mem_of_mem_drop hxe
      have hf2 : t.length + 1 - max (s + 1) (chunkEnd t cs s - ov) ≤ f2 := by
        have : s + 1 ≤ max (s + 1) (chunkEnd t cs s - ov) := Nat.le_max_left _ _
        omega
      obtain ⟨c, hcmem, hxc⟩ := ih _ hf2 hx2
      by_cases hch : pyStrip (pySlice t s (chunkEnd t cs s)) = []
      · rw [if_pos hch]
        exact ⟨c, hcmem, hxc⟩
      · rw [if_neg hch]
        exact ⟨c, List.mem_cons_of_mem _ hcmem, hxc⟩

end LoopLemmas

section PipelineLemmas

theorem retryGo_status (attempt : Nat → Except String Unit) :
    ∀ rem i, (retryGo attempt i rem).1 = "indexed" ∨ (retryGo attempt i rem).1 = "processed" := by
  intro rem
  induction rem with
  | zero => intro i; right; rfl
  | succ rem2 ih =>
    intro i
    cases hat : attempt i with
    | ok u => left; simp [retryGo, hat]
    | error e =>
      by_cases hrem : rem2 = 0
      · right; simp [retryGo, hat, hrem]
      · have := ih (i + 1)
        simp only [retryGo, hat, if_neg hrem]
        exact this

theorem validate_true_strip_ne {t : List Char} (hv : (validate_extracted_text t).1 = true) :
    pyStrip t ≠ [] := by
  intro h0
  unfold validate_extracted_text at hv
  rw [h0] at hv
  simp at hv

theorem extract_ok_of_valid (txt : List Char)
    (hv : (validate_extracted_text txt).1 = true) :
    extract_and_validate_text (Except.ok txt) = (txt, true, "") := by
  simp only [extract_and_validate_text]
  rw [hv]
  simp [validate_true_strip_ne hv]

end PipelineLemmas

/-- C1: for every document present when process_and_index_document begins,
after the call returns the status is one of failed, indexed, processed —
never processing, never uploaded — whatever the outcomes of extraction,
validation and indexing are, including exceptions. -/
theorem run_status_terminal (doc : Document) (extractRes : Except String (List Char))
    (ragAvailable : Bool) (attempt : Nat → Except String Unit) (stray : Option String) :
    (process_and_index_document doc extractRes ragAvailable attempt stray).status
      ∈ (["failed", "indexed", "processed"] : List String) := by
  cases stray with
  | some e => simp [process_and_index_document]
  | none =>
    simp only [process_and_index_document]
    by_cases hok : (extract_and_validate_text extractRes).2.1 = false
    · rw [if_pos hok]
      simp
    · rw [if_neg hok]
      by_cases hrag : ragAvailable = false
      · simp [index_document_with_rag, hrag]
      · have hr := retryGo_status attempt 3 0
        simp only [index_document_with_rag, if_neg hrag]
        rcases hr with h | h <;> simp [h]

/-- C7: when the similarity search yields zero chunks, the query endpoint
returns at once without invoking the language model: the no-documents
message when the document count is zero, the no-matches message otherwise,
in both cases with an empty chunk list. -/
theorem query_empty_no_llm (q : String) (docCount : Nat) (llmAvailable : Bool)
    (llmGen : Except String String) :
    process_document q [] docCount llmAvailable llmGen =
      ({ query := q
         response :=
           if docCount = 0 then
             "No documents have been uploaded yet. Please upload some PDF documents first."
           else
             "No relevant content found in the uploaded documents for this query. Try rephrasing your question or uploading more relevant documents."
         relevant_chunks := [] }, false) := by
  by_cases h : docCount = 0 <;> simp [process_document, h]

/-- C9: the validation verdict and reason are invariant under stripping
leading and trailing whitespace from the input. -/
theorem validate_trim_invariant (t : List Char) :
    validate_extracted_text (pyStrip t) = validate_extracted_text t := by
  by_cases h : pyStrip t = []
  · simp [validate_extracted_text, h, pyStrip_nil]
  · have ht : t ≠ [] := by
      intro h0
      rw [h0] at h
      exact h rfl
    simp [validate_extracted_text, h, ht, pyStrip_idem]

/-- C10: with the RAG service absent, a run whose extracted text passes
validation ends processed, with the not-indexed message and the content
persisted; it never ends failed. -/
theorem rag_unavailable_processed (doc : Document) (txt : List Char)
    (attempt : Nat → Except String Unit)
    (hv : (validate_extracted_text txt).1 = true) :
    process_and_index_document doc (Except.ok txt) false attempt none =
      { status := "processed", content := txt,
        error_message := some ("RAG service not available, document not indexed") } := by
  have hext := extract_ok_of_valid txt hv
  simp [process_and_index_document, hext, index_document_with_rag]

/-- Closed instantiation of rag_unavailable_processed at a concrete
document and text. -/
theorem rag_unavailable_processed_witness :
    process_and_index_document ⟨"uploaded", [], none⟩ (Except.ok sampleText) false
        (fun _ => Except.ok ()) none =
      { status := "processed", content := sampleText,
        error_message := some ("RAG service not available, document not indexed") } :=
  rag_unavailable_processed ⟨"uploaded", [], none⟩ sampleText (fun _ => Except.ok ())
    (by decide)

/-- C8: every chunk returned by chunk_text is non-empty, equal to its own
stripped form, and at most chunk_size characters long. -/
theorem chunk_props (t : List Char) (cs ov : Nat) (c : List Char)
    (hc : c ∈ chunk_text t cs ov) :
    c ≠ [] ∧ pyStrip c = c ∧ c.length ≤ cs := by
  unfold chunk_text at hc
  by_cases hcond : (t = [] || pyStrip t = []) = true
  · rw [if_pos hcond] at hc
    cases hc
  · rw [if_neg hcond] at hc
    exact chunkLoop_mem (normalizeText t) cs ov _ _ c hc

/-- Closed instantiation of chunk_props at a concrete chunk of a concrete
text. -/
theorem chunk_props_witness :
    ("Hello there.").toList ≠ [] ∧
    pyStrip (("Hello there.").toList) = ("Hello there.").toList ∧
    (("Hello there.").toList).length ≤ 50 :=
  chunk_props (("Hello there.").toList) 50 10 (("Hello there.").toList) (by decide)

/-- C4 counterexample: for the text of a and b and space and c with
chunk_size 3 and overlap 0, the space of the normalised text survives in
no chunk: the claim that every character of the normalised text appears in
at least one chunk fails. -/
theorem chunk_text_loses_whitespace :
    normalizeText (("ab c").toList) = ("ab c").toList ∧
    chunk_text (("ab c").toList) 3 0 = [['a', 'b'], ['c']] ∧
    ¬ (∀ x ∈ normalizeText (("ab c").toList),
        ∃ c ∈ chunk_text (("ab c").toList) 3 0, x ∈ c) := by
  decide

/-- C4 amended: for positive chunk_size, every non-whitespace character of
the whitespace-normalised text appears in at least one chunk returned by
chunk_text; whitespace characters may be lost to the per-chunk strip. -/
theorem chunk_text_covers (t : List Char) (cs ov : Nat) (hcs : 1 ≤ cs)
    (x : Char) (hx : x ∈ normalizeText t) (hws : pyIsSpace x = false) :
    ∃ c ∈ chunk_text t cs ov, x ∈ c := by
  unfold chunk_text
  by_cases hcond : (t = [] || pyStrip t = []) = true
  · exfalso
    have hstrip : pyStrip t = [] := by
      rcases (by simpa using hcond : t = [] ∨ pyStrip t = []) with h | h
      · rw [h]
        rfl
      · exact h
    rw [normalizeText, hstrip] at hx
    simp [collapseGo, paraSub, paraSubGo] at hx
  · rw [if_neg hcond]
    have hx0 : x ∈ (normalizeText t).drop 0 := by simpa using hx
    exact chunkLoop_covers (normalizeText t) cs ov hcs hws ((normalizeText t).length + 1) 0
      (by omega) hx0

/-- Closed instantiation of chunk_text_covers at a concrete text and
character. -/
theorem chunk_text_covers_witness :
    ∃ c ∈ chunk_text (("Hello world.").toList) 100 10, ('H' : Char) ∈ c :=
  chunk_text_covers (("Hello world.").toList) 100 10 (by decide) 'H' (by decide) (by decide)

/-- C6: the chunking loop terminates on every input: results are stable in
any sufficient fuel (start strictly increases each iteration, so length+1
iterations always suffice), each iteration strictly advances start via
max(start+1, end-overlap), and empty or all-whitespace input yields the
empty sequence. As a Lean function the embedding is pure by construction. -/
theorem chunk_text_terminates :
    (∀ (t : List Char) (cs ov f g s : Nat), t.length + 1 - s ≤ f → t.length + 1 - s ≤ g →
        chunkLoop t cs ov f s = chunkLoop t cs ov g s)
    ∧ (∀ (s e ov : Nat), s < max (s + 1) (e - ov))
    ∧ (∀ (t : List Char) (cs ov : Nat), pyStrip t = [] → chunk_text t cs ov = []) :=
  ⟨fun t cs ov => chunkLoop_fuel_indep t cs ov,
   fun s e ov => Nat.lt_of_lt_of_le (Nat.lt_succ_self s) (Nat.le_max_left (s + 1) (e - ov)),
   fun t cs ov h => by simp [chunk_text, h]⟩

/-- Closed instantiation of chunk_text_terminates: fuel independence at a
concrete text, strict progress at concrete numbers, a whitespace-only
input chunked to nothing. -/
theorem chunk_text_terminates_witness :
    chunkLoop (("ab").toList) 1 0 3 0 = chunkLoop (("ab").toList) 1 0 7 0 ∧
    0 < max (0 + 1) (5 - 2) ∧
    chunk_text (("   ").toList) 4 1 = [] :=
  ⟨chunk_text_terminates.1 (("ab").toList) 1 0 3 7 0 (by decide) (by decide),
   chunk_text_terminates.2.1 0 5 2,
   chunk_text_terminates.2.2 (("   ").toList) 4 1 (by decide)⟩

/-- C5 counterexample: the text of five copies of A-dot-space has stripped
length 14, so the gate's reason reports 14 characters, not the 15 the
claim states. -/
theorem short_text_reason :
    validate_extracted_text (("A. A. A. A. A. ").toList) =
      (false, "Text too short (14 characters)") ∧
    (validate_extracted_text (("A. A. A. A. A. ").toList)).2 ≠
      "text too short (15 characters)" := by
  decide

/-- C5 amended: for the input of five copies of A-dot-space, the gate
rejects with reason reporting 14 characters (the trailing space is
stripped before measuring), and a run whose extraction yields exactly this
text ends failed with that reason in its error message. -/
theorem short_text_run_failed :
    process_and_index_document ⟨"uploaded", [], none⟩
        (Except.ok (("A. A. A. A. A. ").toList)) true (fun _ => Except.ok ()) none =
      ⟨"failed", [],
       some ("Text extraction validation failed: Text too short (14 characters)")⟩ := by
  decide

/-- C2: the indexing step runs at most 3 attempts with back-off sleeps of
2 to the power of the attempt number after each failed non-final attempt;
success at attempt k ends the run indexed with no error message, and three
failures end it processed with the last cause in the error message and the
extracted content persisted. -/
theorem indexing_retry_spec (attempt : Nat → Except String Unit) (emsg : Nat → String)
    (doc : Document) (txt : List Char)
    (hv : (validate_extracted_text txt).1 = true) :
    (∀ k, k < 3 → (∀ j, j < k → attempt j = Except.error (emsg j)) →
        attempt k = Except.ok () →
        index_document_with_rag true attempt =
          ("indexed", none, (List.range k).map (fun j => 2 ^ j), k + 1) ∧
        process_and_index_document doc (Except.ok txt) true attempt none =
          { status := "indexed", content := txt, error_message := none })
    ∧ ((∀ j, j < 3 → attempt j = Except.error (emsg j)) →
        index_document_with_rag true attempt =
          ("processed", some ("RAG indexing failed after retries: " ++ emsg 2), [1, 2], 3) ∧
        process_and_index_document doc (Except.ok txt) true attempt none =
          { status := "processed", content := txt,
            error_message := some ("RAG indexing failed after retries: " ++ emsg 2) }) := by
  have hext := extract_ok_of_valid txt hv
  constructor
  · intro k hk hfail hok
    have hidx : index_document_with_rag true attempt =
        ("indexed", none, (List.range k).map (fun j => 2 ^ j), k + 1) := by
      interval_cases k
      · simp [index_document_with_rag, retryGo, hok]
      · have h0 := hfail 0 (by omega)
        simp [index_document_with_rag, retryGo, h0, hok, List.range_succ]
      · have h0 := hfail 0 (by omega)
        have h1 := hfail 1 (by omega)
        simp [index_document_with_rag, retryGo, h0, h1, hok, List.range_succ]
    exact ⟨hidx, by simp [process_and_index_document, hext, hidx]⟩
  · intro hfail
    have h0 := hfail 0 (by omega)
    have h1 := hfail 1 (by omega)
    have h2 := hfail 2 (by omega)
    have hidx : index_document_with_rag true attempt =
        ("processed", some ("RAG indexing failed after retries: " ++ emsg 2), [1, 2], 3) := by
      simp [index_document_with_rag, retryGo, h0, h1, h2]
    exact ⟨hidx, by simp [process_and_index_document, hext, hidx]⟩

/-- Closed instantiation of indexing_retry_spec: an index operation that
fails twice then succeeds ends indexed after two sleeps of 1 and 2
seconds; one that always fails ends processed with the cause recorded. -/
theorem indexing_retry_spec_witness :
    (index_document_with_rag true attemptThirdOk =
        ("indexed", none, (List.range 2).map (fun j => 2 ^ j), 2 + 1) ∧
      process_and_index_document ⟨"uploaded", [], none⟩ (Except.ok sampleText) true
          attemptThirdOk none =
        { status := "indexed", content := sampleText, error_message := none }) ∧
    (index_document_with_rag true attemptAllFail =
        ("processed", some ("RAG indexing failed after retries: " ++ "store down"), [1, 2], 3) ∧
      process_and_index_document ⟨"uploaded", [], none⟩ (Except.ok sampleText) true
          attemptAllFail none =
        { status := "processed", content := sampleText,
          error_message := some ("RAG indexing failed after retries: " ++ "store down") }) :=
  ⟨(indexing_retry_spec attemptThirdOk (fun _ => "store down") ⟨"uploaded", [], none⟩
        sampleText (by decide)).1 2 (by omega)
      (fun j hj => by
        have hj2 : j = 0 ∨ j = 1 := by omega
        rcases hj2 with h | h <;> subst h <;> rfl)
      (by rfl),
   (indexing_retry_spec attemptAllFail (fun _ => "store down") ⟨"uploaded", [], none⟩
        sampleText (by decide)).2 (fun j hj => rfl)⟩

/-- C3: re-indexing document 1 while its two chunks from a previous
indexing are stored deletes nothing: index_document only adds, so the
stale chunk with id doc_1_chunk_1 is still present afterwards, although
delete_document (which no code path invokes) would have removed it. -/
theorem stale_chunk_survives_reindex :
    ({ id := "doc_1_chunk_1", doc_id := 1, chunk_index := 1,
       text := ("old part two").toList : ChunkRecord }) ∈
      index_document
        [{ id := "doc_1_chunk_0", doc_id := 1, chunk_index := 0,
           text := ("old part one").toList },
         { id := "doc_1_chunk_1", doc_id := 1, chunk_index := 1,
           text := ("old part two").toList }]
        1 (("Fresh content.").toList) ∧
    delete_document
        [{ id := "doc_1_chunk_0", doc_id := 1, chunk_index := 0,
           text := ("old part one").toList },
         { id := "doc_1_chunk_1", doc_id := 1, chunk_index := 1,
           text := ("old part two").toList }]
        1 = [] := by
  decide
